import Mathlib

/-!
Verification of the fx-eval expression language (lexer, parser, evaluator)
against its natural-language specification.

The TypeScript sources are shallowly embedded as follows:

* JS numbers (IEEE doubles) are modelled by `ℚ`.  Every computation the
  claims exercise stays inside the fragment where double arithmetic is
  exact (small integers, halting powers with integer exponents), where the
  two agree.  The `^` operator (JS `**`) is modelled exactly on integer
  exponents and mapped to `0` on fractional ones; `/` is rational division
  (JS would produce Infinity/NaN at a zero divisor; no claim touches that).
* JS string-keyed objects are association lists (`List (String × α)`)
  with first-match lookup and in-place replacing update, which preserves
  the observable object semantics (lookup, overwrite, key set).
* JS truthiness of a stored number (`if (obj[k]) ...`) is modelled by
  `truthyGet`: a missing key and a key bound to `0` are both "falsy"
  (`NaN`, the only other falsy double, does not arise in `ℚ`).
* Exceptions are modelled by `Except String`; stateful methods thread an
  explicit `EvalState` and return it alongside the result, also on the
  error path (mutations before a throw persist, as in the source).
* General recursion (evaluation of user functions, recursive-descent
  parsing) is made total with an explicit fuel parameter, decremented at
  every recursive call.  Fuel exhaustion returns the same kind of error a
  JS stack overflow would (which the source catches and wraps like any
  other error).  All concrete statements use ample fuel.
-/

namespace FxEval

attribute [local semireducible] Rat.sub Rat.mul Rat.add Rat.inv Rat.ofScientific

/-! ## Tokens (lexer.ts) -/

inductive TokenType where
  | number
  | operator
  | punctuation
  | keyword
  | word
  | invalid
  | eof
deriving DecidableEq, Repr

structure Token where
  ttype : TokenType
  tvalue : String
deriving DecidableEq, Repr

/-- Printable name of a token type, as interpolated into error messages
by the source (the `TokenType` string literals). -/
def ttypeName : TokenType → String
  | .number => "number"
  | .operator => "operator"
  | .punctuation => "punctuation"
  | .keyword => "keyword"
  | .word => "word"
  | .invalid => "invalid"
  | .eof => "eof"

def EOFToken : Token := ⟨.eof, ""⟩

def operatorChars : List Char := ['+', '-', '*', '/', '^']

def punctuationChars : List Char := ['=', '(', ')', ',']

def keywords : List String := ["let", "const"]

/-- JS regex `\s` restricted to the ASCII whitespace the language ever
sees. -/
def isWhitespaceChar (c : Char) : Bool :=
  c == ' ' || c == '\t' || c == '\n' || c == '\r' || c == '\x0b' || c == '\x0c'

def isDigitChar (c : Char) : Bool := '0' ≤ c && c ≤ '9'

/-- JS regex `[_a-zA-Z]`. -/
def isLetterChar (c : Char) : Bool :=
  c == '_' || ('a' ≤ c && c ≤ 'z') || ('A' ≤ c && c ≤ 'Z')

/-- JS regex `[_a-zA-Z0-9]`. -/
def isAlphanumChar (c : Char) : Bool := isLetterChar c || isDigitChar c

/-- Lexer.readNumber: a run of digits, optionally followed by one '.'
and a further (possibly empty) run of digits. -/
def readNumber (s : List Char) : Token × List Char :=
  let ds := s.takeWhile isDigitChar
  let s1 := s.dropWhile isDigitChar
  if s1.head? = some '.' then
    (⟨.number, String.mk (ds ++ '.' :: s1.tail.takeWhile isDigitChar)⟩,
     s1.tail.dropWhile isDigitChar)
  else (⟨.number, String.mk ds⟩, s1)

/-- Lexer.readWord: a run of `[_a-zA-Z0-9]`, classified as a keyword when
it is "let" or "const". -/
def readWord (s : List Char) : Token × List Char :=
  let w := String.mk (s.takeWhile isAlphanumChar)
  (⟨if keywords.contains w then .keyword else .word, w⟩,
   s.dropWhile isAlphanumChar)

/-- Lexer.readToken: skip whitespace, then classify by the current
character. -/
def readToken (s : List Char) : Token × List Char :=
  let s := s.dropWhile isWhitespaceChar
  match s with
  | [] => (EOFToken, [])
  | c :: rest =>
      if operatorChars.contains c then (⟨.operator, c.toString⟩, rest)
      else if punctuationChars.contains c then (⟨.punctuation, c.toString⟩, rest)
      else if isDigitChar c then readNumber (c :: rest)
      else if isLetterChar c then readWord (c :: rest)
      else (⟨.invalid, c.toString⟩, rest)

/-- Loop of readAllTokens.  Each emitted token consumes at least one
character, so fuel `length + 1` never runs out. -/
def readTokensFuel : ℕ → List Char → List Token
  | 0, _ => []
  | fuel + 1, s =>
      match readToken s with
      | (⟨.eof, _⟩, _) => []
      | (t, rest) => t :: readTokensFuel fuel rest

/-- readAllTokens over a source string. -/
def tokenize (src : String) : List Token :=
  readTokensFuel (src.length + 1) src.data

/-! ## Abstract syntax (ast.ts) -/

/-- Expression nodes.  Constructor names follow the `ntype` tags of the
source (`variable` is a Lean keyword, hence `var`). -/
inductive Expression where
  | justNumber (value : ℚ)
  | var (varname : String)
  | binaryOperation (operator : String) (left right : Expression)
  | unaryOperation (operator : String) (expr : Expression)
  | functionalCall (funcname : String) (args : List Expression)

inductive Statement where
  | letStatement (funcname : String) (params : List Expression) (body : Expression)
  | constStatement (constname : String) (value : Expression)
  | expr (e : Expression)

/-! ## Parser (parser.ts)

The source builds `parseExpression` with `compileExpessionParser`, a
`reduceRight` over the rule table
`[[binaryLeft, + -], [binaryLeft, * /], [binaryRight, ^], [unary, -]]`
seeded with `parsePrimary`.  Unfolding that fold gives the fixed chain
addsub → muldiv → power → unary → primary embedded below, each level
specialised to its operator list.  The token stream (`TokenBuffer`) is a
token list whose "current" token is the head, or EOF once exhausted. -/

def currentTok (ts : List Token) : Token := ts.headD EOFToken

/-- Decimal digit-run accumulator for number parsing. -/
def digitsToNat : List Char → ℕ → ℕ
  | [], acc => acc
  | c :: rest, acc => digitsToNat rest (acc * 10 + (c.toNat - '0'.toNat))

/-- JS `Number()` applied to a lexer number token (digits, optionally
'.' and more digits; a missing fraction part counts as zero). -/
def parseNumberText (s : String) : ℚ :=
  let ip := s.data.takeWhile (fun c => c ≠ '.')
  match s.data.dropWhile (fun c => c ≠ '.') with
  | [] => (digitsToNat ip 0 : ℚ)
  | _ :: fp => (digitsToNat ip 0 : ℚ) + (digitsToNat fp 0 : ℚ) / (10 ^ fp.length)

abbrev P (α : Type) := Except String (α × List Token)

/-- Parser.expect: consume one token, failing unless its text matches. -/
def expectTok (tv : String) (ts : List Token) : Except String (List Token) :=
  let cur := currentTok ts
  if cur.tvalue == tv then .ok ts.tail
  else .error ("expected \"" ++ tv ++ "\", found \"" ++ cur.tvalue ++ "\"")

/-- Parser.nextOfType: consume one token, failing unless its type
matches. -/
def nextOfType (tt : TokenType) (ts : List Token) : Except String (Token × List Token) :=
  let cur := currentTok ts
  if cur.ttype == tt then .ok (cur, ts.tail)
  else .error ("expected token of type <" ++ ttypeName tt ++ ">, found \""
      ++ cur.tvalue ++ "\" of type <" ++ ttypeName cur.ttype ++ ">")

/-- Error raised when the parser's fuel runs out; corresponds to a JS
stack overflow, which the evaluator catches like any other error. -/
def fuelMsg : String := "Maximum call stack size exceeded"

mutual

/-- The compiled expression entry point (loosest level: `+ -`). -/
def parseExpression : ℕ → List Token → P Expression
  | 0, _ => .error fuelMsg
  | fuel + 1, ts =>
      match parseMulDiv fuel ts with
      | .error m => .error m
      | .ok (e, ts1) => parseAddSubLoop fuel e ts1

/-- Parser.parseBinaryLeft specialised to `['+', '-']` (the while loop). -/
def parseAddSubLoop : ℕ → Expression → List Token → P Expression
  | 0, _, _ => .error fuelMsg
  | fuel + 1, e, ts =>
      if (currentTok ts).tvalue == "+" || (currentTok ts).tvalue == "-" then
        match parseMulDiv fuel ts.tail with
        | .error m => .error m
        | .ok (r, ts1) =>
            parseAddSubLoop fuel (.binaryOperation (currentTok ts).tvalue e r) ts1
      else .ok (e, ts)

def parseMulDiv : ℕ → List Token → P Expression
  | 0, _ => .error fuelMsg
  | fuel + 1, ts =>
      match parsePower fuel ts with
      | .error m => .error m
      | .ok (e, ts1) => parseMulDivLoop fuel e ts1

/-- Parser.parseBinaryLeft specialised to `['*', '/']`. -/
def parseMulDivLoop : ℕ → Expression → List Token → P Expression
  | 0, _, _ => .error fuelMsg
  | fuel + 1, e, ts =>
      if (currentTok ts).tvalue == "*" || (currentTok ts).tvalue == "/" then
        match parsePower fuel ts.tail with
        | .error m => .error m
        | .ok (r, ts1) =>
            parseMulDivLoop fuel (.binaryOperation (currentTok ts).tvalue e r) ts1
      else .ok (e, ts)

/-- Parser.parseBinaryRight specialised to `['^']`: right associative by
recursing into itself for the right operand. -/
def parsePower : ℕ → List Token → P Expression
  | 0, _ => .error fuelMsg
  | fuel + 1, ts =>
      match parseUnaryExpr fuel ts with
      | .error m => .error m
      | .ok (e, ts1) =>
          if (currentTok ts1).tvalue == "^" then
            match parsePower fuel ts1.tail with
            | .error m => .error m
            | .ok (r, ts2) => .ok (.binaryOperation "^" e r, ts2)
          else .ok (e, ts1)

/-- Parser.parseUnary specialised to `['-']`.  Its `next` parser is
`parsePrimary`, so unary minus binds tighter than `^`. -/
def parseUnaryExpr : ℕ → List Token → P Expression
  | 0, _ => .error fuelMsg
  | fuel + 1, ts =>
      if (currentTok ts).tvalue == "-" then
        match parseUnaryExpr fuel ts.tail with
        | .error m => .error m
        | .ok (e, ts1) => .ok (.unaryOperation "-" e, ts1)
      else parsePrimary fuel ts

def parsePrimary : ℕ → List Token → P Expression
  | 0, _ => .error fuelMsg
  | fuel + 1, ts =>
      if (currentTok ts).ttype == .number then
        .ok (.justNumber (parseNumberText (currentTok ts).tvalue), ts.tail)
      else if (currentTok ts).ttype == .word then
        let name := (currentTok ts).tvalue
        let ts1 := ts.tail
        if (currentTok ts1).tvalue == "(" then
          match parseFunctionParameters fuel ts1 with
          | .error m => .error m
          | .ok (args, ts2) => .ok (.functionalCall name args, ts2)
        else .ok (.var name, ts1)
      else if (currentTok ts).tvalue == "(" then
        match parseExpression fuel ts.tail with
        | .error m => .error m
        | .ok (e, ts1) =>
            match expectTok ")" ts1 with
            | .error m => .error m
            | .ok ts2 => .ok (e, ts2)
      else
        .error ("expected <just-number>, <word> or \"(\", found \""
          ++ (currentTok ts).tvalue ++ "\" of type <"
          ++ ttypeName (currentTok ts).ttype ++ ">")

/-- Parser.parseFunctionParameters: "(", optional immediate ")", else a
comma-separated expression list closed by ")". -/
def parseFunctionParameters : ℕ → List Token → P (List Expression)
  | 0, _ => .error fuelMsg
  | fuel + 1, ts =>
      match expectTok "(" ts with
      | .error m => .error m
      | .ok ts1 =>
          if (currentTok ts1).tvalue == ")" then .ok ([], ts1.tail)
          else parseParamsLoop fuel ts1

/-- The `while(true)` body of parseFunctionParameters: parse an
expression, continue past each ",", finally expect ")". -/
def parseParamsLoop : ℕ → List Token → P (List Expression)
  | 0, _ => .error fuelMsg
  | fuel + 1, ts =>
      match parseExpression fuel ts with
      | .error m => .error m
      | .ok (p, ts1) =>
          if (currentTok ts1).tvalue == "," then
            match parseParamsLoop fuel ts1.tail with
            | .error m => .error m
            | .ok (ps, ts2) => .ok (p :: ps, ts2)
          else
            match expectTok ")" ts1 with
            | .error m => .error m
            | .ok ts2 => .ok ([p], ts2)

end

def parseLetStatement : ℕ → List Token → P Statement
  | 0, _ => .error fuelMsg
  | fuel + 1, ts =>
      match expectTok "let" ts with
      | .error m => .error m
      | .ok ts1 =>
          match nextOfType .word ts1 with
          | .error m => .error m
          | .ok (nameTok, ts2) =>
              match parseFunctionParameters fuel ts2 with
              | .error m => .error m
              | .ok (params, ts3) =>
                  match expectTok "=" ts3 with
                  | .error m => .error m
                  | .ok ts4 =>
                      match parseExpression fuel ts4 with
                      | .error m => .error m
                      | .ok (body, ts5) =>
                          .ok (.letStatement nameTok.tvalue params body, ts5)

def parseConstStatement : ℕ → List Token → P Statement
  | 0, _ => .error fuelMsg
  | fuel + 1, ts =>
      match expectTok "const" ts with
      | .error m => .error m
      | .ok ts1 =>
          match nextOfType .word ts1 with
          | .error m => .error m
          | .ok (nameTok, ts2) =>
              match expectTok "=" ts2 with
              | .error m => .error m
              | .ok ts3 =>
                  match parseExpression fuel ts3 with
                  | .error m => .error m
                  | .ok (value, ts4) => .ok (.constStatement nameTok.tvalue value, ts4)

def parseStatement : ℕ → List Token → P Statement
  | 0, _ => .error fuelMsg
  | fuel + 1, ts =>
      match (currentTok ts).tvalue with
      | "let" => parseLetStatement fuel ts
      | "const" => parseConstStatement fuel ts
      | _ =>
          match parseExpression fuel ts with
          | .error m => .error m
          | .ok (e, ts1) => .ok (.expr e, ts1)

/-- Parser.parseSingleStatement on a token stream: `none` for immediate
end of input, a syntax error when tokens trail a complete statement. -/
def parseSingleStatementTokens (fuel : ℕ) (ts : List Token) :
    Except String (Option Statement) :=
  if (currentTok ts).ttype == .eof then .ok none
  else
    match parseStatement fuel ts with
    | .error m => .error m
    | .ok (stmt, ts1) =>
        if (currentTok ts1).ttype == .eof then .ok (some stmt)
        else
          .error ("unexpected token \"" ++ (currentTok ts1).tvalue
            ++ "\" of type <" ++ ttypeName (currentTok ts1).ttype
            ++ "> at the end of the statement")

/-- Parser.parseSingleStatement on raw source text. -/
def parseSingleStatement (fuel : ℕ) (src : String) : Except String (Option Statement) :=
  parseSingleStatementTokens fuel (tokenize src)

/-! ## Evaluator (evaluator.ts) -/

/-- A JS string-keyed object: first-match lookup. -/
def mapGet {α : Type} (m : List (String × α)) (k : String) : Option α :=
  match m with
  | [] => none
  | (k', v) :: rest => if k' = k then some v else mapGet rest k

/-- JS property assignment: replace in place, or append a fresh key. -/
def mapSet {α : Type} (m : List (String × α)) (k : String) (v : α) :
    List (String × α) :=
  match m with
  | [] => [(k, v)]
  | (k', v') :: rest => if k' = k then (k, v) :: rest else (k', v') :: mapSet rest k v

/-- JS `obj[k]` used as a condition: a missing key and a key bound to the
falsy number `0` both fail the test. -/
def truthyGet (m : List (String × ℚ)) (k : String) : Option ℚ :=
  match mapGet m k with
  | some v => if v = 0 then none else some v
  | none => none

abbrev Scope := List (String × ℚ)

/-- VariableManager.get: scan scopes innermost-first; the source guards
each scope with the truthy test `if(current[variable])`, so a scope
binding the name to `0` is passed over like an absent one. -/
def varGet : List Scope → String → Option ℚ
  | [], _ => none
  | sc :: rest, n =>
      match truthyGet sc n with
      | some v => some v
      | none => varGet rest n

/-- VariableManager.setConstant: write into scope 0 (the outermost,
i.e. the last in our innermost-first list). -/
def setConstant : List Scope → String → ℚ → List Scope
  | [], _, _ => []
  | [g], n, v => [mapSet g n v]
  | sc :: rest, n, v => sc :: setConstant rest n v

/-- VariableManager.leaveScope: pop the innermost scope, refusing to drop
below the global one. -/
def leaveScope : List Scope → Option (List Scope)
  | _ :: r :: rest => some (r :: rest)
  | _ => none

/-- One slot of a clause pattern (`number | string` in the source). -/
inductive CaseSlot where
  | num (v : ℚ)
  | bind (name : String)

structure UserFuncCase where
  fcase : List CaseSlot
  clause : Expression

/-- A registered builtin: `func.length` (the declared parameter count)
and the function itself, taking the evaluated argument list. -/
structure Builtin where
  arity : ℕ
  impl : List ℚ → ℚ

abbrev Builtins := List (String × Builtin)

/-- The evaluator's session state.  `builtinFuncs` is read-only and kept
outside; `nth` is the 1-based statement counter. -/
structure EvalState where
  nth : ℕ
  scopes : List Scope
  userfuncs : List (String × List UserFuncCase)
  funcache : List (String × ℚ)

/-- The evaluator as constructed: counter 1, a single empty global scope,
the default constants written into it in order. -/
def mkEvaluator (consts : List (String × ℚ)) : EvalState :=
  ⟨1, consts.foldl (fun scs kv => setConstant scs kv.1 kv.2) [[]], [], []⟩

def initialState : EvalState := mkEvaluator []

/-- JS `String(n)` on a number, up to an injective recoding: Lean's
rational printing instead of double printing.  Cache keys and
confirmation strings only require that distinct values print
distinctly. -/
def numStr (q : ℚ) : String := toString q

/-- `Array.prototype.join`. -/
def joinSep (sep : String) : List String → String
  | [] => ""
  | [x] => x
  | x :: rest => x ++ sep ++ joinSep sep rest

/-- The cache key `funcname(v1,v2,...)` built in callFunction. -/
def cacheKey (funcname : String) (vals : List ℚ) : String :=
  funcname ++ "(" ++ joinSep "," (vals.map numStr) ++ ")"

/-- The `f(v1, v2)` rendering used in the no-matching-clause error. -/
def strFunc (funcname : String) (vals : List ℚ) : String :=
  funcname ++ "(" ++ joinSep ", " (vals.map numStr) ++ ")"

/-- The BinaryOperators table.  `^` (JS `**`) is exact on integer
exponents; a fractional exponent (an irrational double power in JS) is
mapped to 0 — no claim exercises it. -/
def binaryOperators (op : String) : Option (ℚ → ℚ → ℚ) :=
  match op with
  | "+" => some (· + ·)
  | "-" => some (· - ·)
  | "*" => some (· * ·)
  | "/" => some (· / ·)
  | "^" => some (fun a b =>
      if b.den = 1 then
        if 0 ≤ b.num then a ^ b.num.toNat else (a ^ (-b.num).toNat)⁻¹
      else 0)
  | _ => none

def unaryOperators (op : String) : Option (ℚ → ℚ) :=
  match op with
  | "-" => some (fun a => -a)
  | _ => none

/-- Pattern matching loop of callUserfunc (over `zipped(args, fcase)`,
called with equal lengths): literal slots must equal the argument
exactly, bind slots populate the fresh call-local scope. -/
def matchCase : List (ℚ × CaseSlot) → Scope → Option Scope
  | [], acc => some acc
  | (v, .num m) :: rest, acc => if v = m then matchCase rest acc else none
  | (v, .bind n) :: rest, acc => matchCase rest (mapSet acc n v)

mutual

/-- Evaluator.evaluateExpression.  State is threaded through and returned
also on errors (a JS throw leaves prior mutations in place). -/
def evaluateExpression (B : Builtins) : ℕ → EvalState → Expression →
    EvalState × Except String ℚ
  | 0, st, _ => (st, .error fuelMsg)
  | fuel + 1, st, e =>
      match e with
      | .justNumber v => (st, .ok v)
      | .var name =>
          match varGet st.scopes name with
          | some v => (st, .ok v)
          | none => (st, .error ("undefined " ++ name ++ "!"))
      | .binaryOperation op l r =>
          match evaluateExpression B fuel st l with
          | (st1, .error m) => (st1, .error m)
          | (st1, .ok a) =>
              match evaluateExpression B fuel st1 r with
              | (st2, .error m) => (st2, .error m)
              | (st2, .ok b) =>
                  match binaryOperators op with
                  | some f => (st2, .ok (f a b))
                  | none => (st2, .error ("operator " ++ op ++ " is not defined"))
      | .unaryOperation op e1 =>
          match evaluateExpression B fuel st e1 with
          | (st1, .error m) => (st1, .error m)
          | (st1, .ok a) =>
              match unaryOperators op with
              | some f => (st1, .ok (f a))
              | none => (st1, .error ("operator " ++ op ++ " is not defined"))
      | .functionalCall f as => callFunction B fuel st f as

/-- The left-to-right `args.map(arg => evaluateExpression(arg))`. -/
def evalArgs (B : Builtins) : ℕ → EvalState → List Expression →
    EvalState × Except String (List ℚ)
  | 0, st, _ => (st, .error fuelMsg)
  | _ + 1, st, [] => (st, .ok [])
  | fuel + 1, st, a :: rest =>
      match evaluateExpression B fuel st a with
      | (st1, .error m) => (st1, .error m)
      | (st1, .ok v) =>
          match evalArgs B fuel st1 rest with
          | (st2, .error m) => (st2, .error m)
          | (st2, .ok vs) => (st2, .ok (v :: vs))

/-- Evaluator.callFunction: evaluate arguments, consult the cache with
the truthy test, then builtins (exact arity), then user functions,
finally an undefined-function error. -/
def callFunction (B : Builtins) : ℕ → EvalState → String → List Expression →
    EvalState × Except String ℚ
  | 0, st, _, _ => (st, .error fuelMsg)
  | fuel + 1, st, funcname, args =>
      match evalArgs B fuel st args with
      | (st1, .error m) => (st1, .error m)
      | (st1, .ok valargs) =>
          match truthyGet st1.funcache (cacheKey funcname valargs) with
          | some v => (st1, .ok v)
          | none =>
              match mapGet B funcname with
              | some bf =>
                  if bf.arity = valargs.length then
                    let v := bf.impl valargs
                    let fc := mapSet st1.funcache (cacheKey funcname valargs) v
                    ({st1 with funcache := fc}, .ok v)
                  else
                    (st1, .error ("builtin function " ++ funcname ++ " expected "
                      ++ toString bf.arity ++ " number of arguments, but got "
                      ++ toString valargs.length))
              | none =>
                  match mapGet st1.userfuncs funcname with
                  | some _ =>
                      match callUserfunc B fuel st1 funcname valargs with
                      | (st2, .error m) => (st2, .error m)
                      | (st2, .ok v) =>
                          let fc := mapSet st2.funcache (cacheKey funcname valargs) v
                          ({st2 with funcache := fc}, .ok v)
                  | none => (st1, .error ("undefined function " ++ funcname ++ "!"))

/-- Evaluator.callUserfunc: fetch the clause list and try it in order. -/
def callUserfunc (B : Builtins) : ℕ → EvalState → String → List ℚ →
    EvalState × Except String ℚ
  | 0, st, _, _ => (st, .error fuelMsg)
  | fuel + 1, st, funcname, args =>
      tryCases B fuel st funcname args ((mapGet st.userfuncs funcname).getD [])

/-- The clause loop of callUserfunc.  On a structural match the fresh
scope is pushed, the clause body evaluated, and the scope popped — but,
as in the source, not popped when the body throws. -/
def tryCases (B : Builtins) : ℕ → EvalState → String → List ℚ →
    List UserFuncCase → EvalState × Except String ℚ
  | 0, st, _, _, _ => (st, .error fuelMsg)
  | _ + 1, st, funcname, args, [] =>
      (st, .error ("no matching clause was found for function call "
        ++ strFunc funcname args))
  | fuel + 1, st, funcname, args, c :: rest =>
      if c.fcase.length ≠ args.length then tryCases B fuel st funcname args rest
      else
        match matchCase (args.zip c.fcase) [] with
        | none => tryCases B fuel st funcname args rest
        | some funcscope =>
            match evaluateExpression B fuel
                {st with scopes := funcscope :: st.scopes} c.clause with
            | (st2, .error m) => (st2, .error m)
            | (st2, .ok v) =>
                match leaveScope st2.scopes with
                | some scs => ({st2 with scopes := scs}, .ok v)
                | none => (st2, .error "failed to leave scope")

end

/-- The result a statement evaluation hands back: a number for a bare
expression, a textual confirmation for definitions and empty input. -/
inductive EvalResult where
  | num (v : ℚ)
  | text (s : String)

/-- The `params.map(...)` of evaluateLetStatement: a bare variable
becomes a bind-name, anything else is evaluated now. -/
def evalParams (B : Builtins) : ℕ → EvalState → List Expression →
    EvalState × Except String (List CaseSlot)
  | 0, st, _ => (st, .error fuelMsg)
  | _ + 1, st, [] => (st, .ok [])
  | fuel + 1, st, p :: rest =>
      match p with
      | .var n =>
          match evalParams B fuel st rest with
          | (st1, .error m) => (st1, .error m)
          | (st1, .ok slots) => (st1, .ok (.bind n :: slots))
      | _ =>
          match evaluateExpression B fuel st p with
          | (st1, .error m) => (st1, .error m)
          | (st1, .ok v) =>
              match evalParams B fuel st1 rest with
              | (st2, .error m) => (st2, .error m)
              | (st2, .ok slots) => (st2, .ok (.num v :: slots))

def caseSlotStr : CaseSlot → String
  | .num v => numStr v
  | .bind n => n

/-- Evaluator.evaluateLetStatement.  Note the source initialises a
missing `userfuncs[funcname]` to `[]` before evaluating the parameters;
the clause itself is appended only after they all evaluated. -/
def evaluateLetStatement (B : Builtins) (fuel : ℕ) (st : EvalState)
    (funcname : String) (params : List Expression) (body : Expression) :
    EvalState × Except String EvalResult :=
  let ufs :=
    match mapGet st.userfuncs funcname with
    | none => mapSet st.userfuncs funcname []
    | some _ => st.userfuncs
  let st0 := {st with userfuncs := ufs}
  match evalParams B fuel st0 params with
  | (st1, .error m) => (st1, .error m)
  | (st1, .ok fcase) =>
      let appended := (mapGet st1.userfuncs funcname).getD [] ++ [⟨fcase, body⟩]
      ({st1 with userfuncs := mapSet st1.userfuncs funcname appended},
       .ok (.text ("<func " ++ funcname ++ "("
          ++ joinSep ", " (fcase.map caseSlotStr) ++ ") = ...>")))

/-- Evaluator.evaluateConstStatement. -/
def evaluateConstStatement (B : Builtins) (fuel : ℕ) (st : EvalState)
    (constname : String) (value : Expression) :
    EvalState × Except String EvalResult :=
  match evaluateExpression B fuel st value with
  | (st1, .error m) => (st1, .error m)
  | (st1, .ok v) =>
      ({st1 with scopes := setConstant st1.scopes constname v},
       .ok (.text ("<const " ++ constname ++ " = " ++ numStr v ++ ">")))

/-- Evaluator.evaluateStatement (`null` becomes the "<empty>"
confirmation). -/
def evaluateStatement (B : Builtins) (fuel : ℕ) (st : EvalState) :
    Option Statement → EvalState × Except String EvalResult
  | none => (st, .ok (.text "<empty>"))
  | some (.letStatement f ps b) => evaluateLetStatement B fuel st f ps b
  | some (.constStatement c v) => evaluateConstStatement B fuel st c v
  | some (.expr e) =>
      match evaluateExpression B fuel st e with
      | (st1, .error m) => (st1, .error m)
      | (st1, .ok v) => (st1, .ok (.num v))

/-- The "(Statement N) message" wrapper of feedSingleStatement. -/
def wrapMsg (n : ℕ) (m : String) : String :=
  "(Statement " ++ toString n ++ ") " ++ m

/-- Evaluator.feedSingleStatement: parse one statement, evaluate it,
wrap any failure with the current counter, and increment the counter
unconditionally (the `finally` block). -/
def feedSingleStatement (B : Builtins) (fuel : ℕ) (st : EvalState)
    (text : String) : EvalState × Except String EvalResult :=
  match parseSingleStatement fuel text with
  | .error m => ({st with nth := st.nth + 1}, .error (wrapMsg st.nth m))
  | .ok ast =>
      match evaluateStatement B fuel st ast with
      | (st1, .ok r) => ({st1 with nth := st1.nth + 1}, .ok r)
      | (st1, .error m) => ({st1 with nth := st1.nth + 1}, .error (wrapMsg st.nth m))

/-- Feed a sequence of statements, collecting each outcome. -/
def feedList (B : Builtins) (fuel : ℕ) : EvalState → List String →
    EvalState × List (Except String EvalResult)
  | st, [] => (st, [])
  | st, t :: rest =>
      match feedSingleStatement B fuel st t with
      | (st1, r) =>
          match feedList B fuel st1 rest with
          | (st2, rs) => (st2, r :: rs)

/-- Two session states agreeing on the function table and the statement
counter; expression evaluation only ever mutates scopes and the cache. -/
def Pres (st st' : EvalState) : Prop :=
  st'.userfuncs = st.userfuncs ∧ st'.nth = st.nth

/-! ## Helper lemmas -/

theorem presTrans {a b c : EvalState} (h1 : Pres a b) (h2 : Pres b c) : Pres a c :=
  ⟨h2.1.trans h1.1, h2.2.trans h1.2⟩

theorem mapGet_mapSet {α : Type} (m : List (String × α)) (k g : String) (v : α) :
    mapGet (mapSet m k v) g = if k = g then some v else mapGet m g := by
  induction m with
  | nil => by_cases h : k = g <;> simp [mapSet, mapGet, h]
  | cons kv rest ih =>
      obtain ⟨k', v'⟩ := kv
      simp only [mapSet]
      by_cases h1 : k' = k
      · subst h1
        by_cases h2 : k' = g <;> simp [mapGet, h2]
      · by_cases h3 : k' = g
        · subst h3
          have hkg : k ≠ k' := fun hh => h1 hh.symm
          simp [mapGet, h1, hkg]
        · simp [mapGet, h1, h3, ih]

theorem truthyGet_of_absent (m : List (String × ℚ)) (k : String)
    (h : mapGet m k = none) : truthyGet m k = none := by
  simp [truthyGet, h]

theorem truthyGet_of_nonzero (m : List (String × ℚ)) (k : String) (v : ℚ)
    (h : mapGet m k = some v) (hnz : v ≠ 0) : truthyGet m k = some v := by
  simp [truthyGet, h, hnz]

/-- Evaluating expressions (and hence calls) never touches the user
function table or the statement counter, whichever path is taken. -/
theorem evalPres (B : Builtins) : ∀ fuel : ℕ,
    (∀ st e, Pres st (evaluateExpression B fuel st e).1) ∧
    (∀ st as, Pres st (evalArgs B fuel st as).1) ∧
    (∀ st f as, Pres st (callFunction B fuel st f as).1) ∧
    (∀ st f vs, Pres st (callUserfunc B fuel st f vs).1) ∧
    (∀ st f vs cs, Pres st (tryCases B fuel st f vs cs).1) := by
  intro fuel
  induction fuel with
  | zero =>
      exact ⟨fun _ _ => ⟨rfl, rfl⟩, fun _ _ => ⟨rfl, rfl⟩, fun _ _ _ => ⟨rfl, rfl⟩,
        fun _ _ _ => ⟨rfl, rfl⟩, fun _ _ _ _ => ⟨rfl, rfl⟩⟩
  | succ n ih =>
      obtain ⟨ihE, ihA, ihF, ihU, ihT⟩ := ih
      refine ⟨?_, ?_, ?_, ?_, ?_⟩
      · intro st e
        cases e with
        | justNumber v => exact ⟨rfl, rfl⟩
        | var name =>
            simp only [evaluateExpression]
            split <;> exact ⟨rfl, rfl⟩
        | binaryOperation op l r =>
            simp only [evaluateExpression]
            split
            · rename_i st1 m heq
              have h := ihE st l; rw [heq] at h; exact h
            · rename_i st1 a heq
              have h1 := ihE st l; rw [heq] at h1
              split
              · rename_i st2 m heq2
                have h2 := ihE st1 r; rw [heq2] at h2
                exact presTrans h1 h2
              · rename_i st2 b heq2
                have h2 := ihE st1 r; rw [heq2] at h2
                split
                · exact presTrans h1 h2
                · exact presTrans h1 h2
        | unaryOperation op e1 =>
            simp only [evaluateExpression]
            split
            · rename_i st1 m heq
              have h := ihE st e1; rw [heq] at h; exact h
            · rename_i st1 a heq
              have h1 := ihE st e1; rw [heq] at h1
              split
              · exact h1
              · exact h1
        | functionalCall f as =>
            simp only [evaluateExpression]
            exact ihF st f as
      · intro st as
        cases as with
        | nil => exact ⟨rfl, rfl⟩
        | cons a rest =>
            simp only [evalArgs]
            split
            · rename_i st1 m heq
              have h := ihE st a; rw [heq] at h; exact h
            · rename_i st1 v heq
              have h1 := ihE st a; rw [heq] at h1
              split
              · rename_i st2 m heq2
                have h2 := ihA st1 rest; rw [heq2] at h2
                exact presTrans h1 h2
              · rename_i st2 vs heq2
                have h2 := ihA st1 rest; rw [heq2] at h2
                exact presTrans h1 h2
      · intro st f as
        simp only [callFunction]
        split
        · rename_i st1 m heq
          have h := ihA st as; rw [heq] at h; exact h
        · rename_i st1 valargs heq
          have h1 := ihA st as; rw [heq] at h1
          split
          · exact h1
          · split
            · split
              · exact h1
              · exact h1
            · split
              · split
                · rename_i st2 m heq2
                  have h2 := ihU st1 f valargs; rw [heq2] at h2
                  exact presTrans h1 h2
                · rename_i st2 v heq2
                  have h2 := ihU st1 f valargs; rw [heq2] at h2
                  exact presTrans h1 h2
              · exact h1
      · intro st f vs
        simp only [callUserfunc]
        exact ihT st f vs _
      · intro st f vs cs
        cases cs with
        | nil => exact ⟨rfl, rfl⟩
        | cons c rest =>
            simp only [tryCases]
            split
            · exact ihT st f vs rest
            · split
              · exact ihT st f vs rest
              · rename_i funcscope hmc
                split
                · rename_i st2 m heq
                  have h := ihE {st with scopes := funcscope :: st.scopes} c.clause
                  rw [heq] at h
                  exact presTrans ⟨rfl, rfl⟩ h
                · rename_i st2 v heq
                  have h := ihE {st with scopes := funcscope :: st.scopes} c.clause
                  rw [heq] at h
                  split
                  · exact presTrans ⟨rfl, rfl⟩ h
                  · exact presTrans ⟨rfl, rfl⟩ h

/-- LetDef parameter evaluation also leaves the function table and the
counter alone. -/
theorem evalParamsPres (B : Builtins) :
    ∀ (fuel : ℕ) (st : EvalState) (ps : List Expression),
      Pres st (evalParams B fuel st ps).1 := by
  intro fuel
  induction fuel with
  | zero => intro st ps; exact ⟨rfl, rfl⟩
  | succ n ih =>
      intro st ps
      cases ps with
      | nil => exact ⟨rfl, rfl⟩
      | cons p rest =>
          simp only [evalParams]
          split
          · split
            · rename_i st1 m heq
              have h := ih st rest; rw [heq] at h; exact h
            · rename_i st1 slots heq
              have h := ih st rest; rw [heq] at h; exact h
          · split
            · rename_i st1 m heq
              have h := (evalPres B n).1 st p; rw [heq] at h; exact h
            · rename_i st1 v heq
              have h1 := (evalPres B n).1 st p; rw [heq] at h1
              split
              · rename_i st2 m heq2
                have h2 := ih st1 rest; rw [heq2] at h2
                exact presTrans h1 h2
              · rename_i st2 slots heq2
                have h2 := ih st1 rest; rw [heq2] at h2
                exact presTrans h1 h2

/-- Equation form of `evalParamsPres`, convenient after a `split`. -/
theorem evalParamsPresEq (B : Builtins) (fuel : ℕ) (st : EvalState)
    (ps : List Expression) (st1 : EvalState) (r : Except String (List CaseSlot))
    (h : evalParams B fuel st ps = (st1, r)) : Pres st st1 := by
  have hp := evalParamsPres B fuel st ps
  rw [h] at hp
  exact hp

/-- Equation form of the expression part of `evalPres`. -/
theorem evalExprPresEq (B : Builtins) (fuel : ℕ) (st : EvalState)
    (e : Expression) (st1 : EvalState) (r : Except String ℚ)
    (h : evaluateExpression B fuel st e = (st1, r)) : Pres st st1 := by
  have hp := (evalPres B fuel).1 st e
  rw [h] at hp
  exact hp

/-- Statement evaluation never touches the statement counter. -/
theorem stmtPresNth (B : Builtins) (fuel : ℕ) (st : EvalState)
    (ast : Option Statement) :
    (evaluateStatement B fuel st ast).1.nth = st.nth := by
  cases ast with
  | none => rfl
  | some s =>
      cases s with
      | letStatement f ps b =>
          simp only [evaluateStatement, evaluateLetStatement]
          split
          · rename_i st1 m heq
            exact (evalParamsPresEq B fuel _ ps _ _ heq).2
          · rename_i st1 fcase heq
            exact (evalParamsPresEq B fuel _ ps _ _ heq).2
      | constStatement c v =>
          simp only [evaluateStatement, evaluateConstStatement]
          split
          · rename_i st1 m heq
            exact (evalExprPresEq B fuel _ v _ _ heq).2
          · rename_i st1 val heq
            exact (evalExprPresEq B fuel _ v _ _ heq).2
      | expr e =>
          simp only [evaluateStatement]
          split
          · rename_i st1 m heq
            exact (evalExprPresEq B fuel _ e _ _ heq).2
          · rename_i st1 v heq
            exact (evalExprPresEq B fuel _ e _ _ heq).2

/-- feedSingleStatement bumps the counter by exactly one, whether the
statement parsed, evaluated, or failed. -/
theorem feedNthSucc (B : Builtins) (fuel : ℕ) (st : EvalState) (text : String) :
    (feedSingleStatement B fuel st text).1.nth = st.nth + 1 := by
  simp only [feedSingleStatement]
  split
  · rfl
  · rename_i ast hparse
    split
    · rename_i st1 r heq
      have h := stmtPresNth B fuel st ast
      rw [heq] at h
      show st1.nth + 1 = st.nth + 1
      rw [h]
    · rename_i st1 m heq
      have h := stmtPresNth B fuel st ast
      rw [heq] at h
      show st1.nth + 1 = st.nth + 1
      rw [h]

/-- A failing feedSingleStatement propagates the underlying message
behind the "(Statement N)" banner built from the entry counter. -/
theorem feedErrPrefixed (B : Builtins) (fuel : ℕ) (st : EvalState)
    (text : String) (m : String)
    (h : (feedSingleStatement B fuel st text).2 = .error m) :
    ∃ m0, m = "(Statement " ++ toString st.nth ++ ") " ++ m0 := by
  simp only [feedSingleStatement] at h
  split at h
  · rename_i m1 hparse
    refine ⟨m1, ?_⟩
    have := congrArg (fun r => match r with | Except.error x => x | Except.ok _ => "") h
    simpa [wrapMsg] using this.symm
  · rename_i ast hparse
    split at h
    · rename_i st1 r heq
      exact absurd h (by simp)
    · rename_i st1 m1 heq
      refine ⟨m1, ?_⟩
      have := congrArg (fun r => match r with | Except.error x => x | Except.ok _ => "") h
      simpa [wrapMsg] using this.symm

/-- Feeding a list of statements advances the counter by the list's
length. -/
theorem feedListNth (B : Builtins) (fuel : ℕ) :
    ∀ (texts : List String) (st : EvalState),
      (feedList B fuel st texts).1.nth = st.nth + texts.length := by
  intro texts
  induction texts with
  | nil => intro st; rfl
  | cons t rest ih =>
      intro st
      simp only [feedList]
      rw [ih, feedNthSucc]
      simp only [List.length_cons]
      omega

/-- All-whitespace character lists lex to the immediate end-of-input
token. -/
theorem readTokenWs (s : List Char) (h : s.all isWhitespaceChar = true) :
    readToken s = (EOFToken, []) := by
  have hd : s.dropWhile isWhitespaceChar = [] := by
    rw [List.dropWhile_eq_nil_iff]
    exact fun x hx => List.all_eq_true.mp h x hx
  simp [readToken, hd]

/-- All-whitespace source tokenizes to the empty stream. -/
theorem tokenizeWs (s : String) (h : s.data.all isWhitespaceChar = true) :
    tokenize s = [] := by
  unfold tokenize
  simp [readTokensFuel, readTokenWs s.data h, EOFToken]

/-- Parsing empty or whitespace-only input yields no statement. -/
theorem parseWsNone (fuel : ℕ) (s : String)
    (h : s.data.all isWhitespaceChar = true) :
    parseSingleStatement fuel s = .ok none := by
  simp [parseSingleStatement, tokenizeWs s h, parseSingleStatementTokens,
    currentTok, EOFToken]

/-- Shape of the token produced by readNumber on input starting with a
digit: a nonempty digit run, optionally extended by '.' and a further
digit run. -/
theorem readNumberShape (c : Char) (rest : List Char)
    (hc : isDigitChar c = true) :
    ∃ ds fs, ds ≠ [] ∧ ds.all isDigitChar = true ∧ fs.all isDigitChar = true ∧
      ((readNumber (c :: rest)).1 = ⟨.number, String.mk ds⟩ ∨
       (readNumber (c :: rest)).1 = ⟨.number, String.mk (ds ++ '.' :: fs)⟩) := by
  have hne : (c :: rest).takeWhile isDigitChar ≠ [] := by
    simp [List.takeWhile_cons, hc]
  have hall : ((c :: rest).takeWhile isDigitChar).all isDigitChar = true :=
    List.all_takeWhile
  cases hdw : (c :: rest).dropWhile isDigitChar with
  | nil =>
      exact ⟨(c :: rest).takeWhile isDigitChar, [], hne, hall, rfl,
        Or.inl (by simp [readNumber, hdw])⟩
  | cons c2 s2 =>
      by_cases hdot : c2 = '.'
      · subst hdot
        exact ⟨(c :: rest).takeWhile isDigitChar, s2.takeWhile isDigitChar,
          hne, hall, List.all_takeWhile,
          Or.inr (by simp [readNumber, hdw])⟩
      · exact ⟨(c :: rest).takeWhile isDigitChar, [], hne, hall, rfl,
          Or.inl (by simp [readNumber, hdw, hdot])⟩

/-- readToken dispatches a leading digit (after whitespace) to
readNumber: digits are neither operators, punctuation, nor letters. -/
theorem readTokenDigit (s : List Char) (c : Char) (rest : List Char)
    (hs : s.dropWhile isWhitespaceChar = c :: rest)
    (hc : isDigitChar c = true) :
    readToken s = readNumber (c :: rest) := by
  have h09 : ('0' ≤ c ∧ c ≤ '9') := by
    simpa [isDigitChar, decide_eq_true_eq] using hc
  have hop : ¬ c ∈ operatorChars := by
    intro hmem
    simp only [operatorChars, List.mem_cons, List.not_mem_nil, or_false] at hmem
    rcases hmem with h | h | h | h | h <;> subst h <;>
      exact absurd h09 (by decide)
  have hpu : ¬ c ∈ punctuationChars := by
    intro hmem
    simp only [punctuationChars, List.mem_cons, List.not_mem_nil, or_false] at hmem
    rcases hmem with h | h | h | h <;> subst h <;>
      exact absurd h09 (by decide)
  simp [readToken, hs, hop, hpu, hc]

/-! ## Claim theorems -/

set_option maxHeartbeats 2000000 in
/-- C1 (code bug): the source's variable lookup guards each scope with a
truthy test, so a name bound to `0` is reported as undefined.  At the
concrete session `const x = 0` then `x`, lookup fails with the name
error even though the global scope binds `x`, contradicting the claim's
"fails if and only if no scope binds the name". -/
theorem zeroBindingLookupFails :
    varGet [[("x", 0)]] "x" = none ∧
    (feedList [] 50 initialState ["const x = 0", "x"]).2 =
      [.ok (.text "<const x = 0>"), .error "(Statement 2) undefined x!"] :=
  ⟨rfl, rfl⟩

set_option maxHeartbeats 2000000 in
/-- C2 (counterexample): a LetDef whose parameter expression fails to
evaluate does not leave the function table exactly as it was: for the
fresh name `f` it creates an empty clause-list entry before failing. -/
theorem letdefFailureCreatesEntryCx :
    (feedSingleStatement [] 100 initialState "let f(x + 1) = 1").2 =
      .error "(Statement 1) undefined x!" ∧
    (feedSingleStatement [] 100 initialState "let f(x + 1) = 1").1.userfuncs =
      [("f", [])] ∧
    initialState.userfuncs = [] ∧
    ([("f", [])] : List (String × List UserFuncCase)) ≠ [] :=
  ⟨rfl, rfl, rfl, by simp⟩

/-- C2 (amended): when LetDef parameter evaluation fails, no clause is
appended for any name; every previously defined function keeps its exact
clause list, and the only possible change to the table is a fresh empty
clause-list entry under the function being defined, when that name was
previously absent. -/
theorem letdefFailureTableEffect (B : Builtins) (fuel : ℕ) (st : EvalState)
    (f : String) (params : List Expression) (body : Expression)
    (st' : EvalState) (m : String)
    (h : evaluateLetStatement B fuel st f params body = (st', .error m)) :
    ∀ g, mapGet st'.userfuncs g = mapGet st.userfuncs g ∨
      (g = f ∧ mapGet st.userfuncs g = none ∧ mapGet st'.userfuncs g = some []) := by
  intro g
  simp only [evaluateLetStatement] at h
  cases hm : mapGet st.userfuncs f with
  | none =>
      rw [hm] at h
      split at h
      · rename_i st1 m1 heq
        injection h with h1 h2
        subst h1
        have hu : st1.userfuncs = mapSet st.userfuncs f [] :=
          (evalParamsPresEq B fuel _ params _ _ heq).1
        by_cases hg : g = f
        · subst hg
          right
          refine ⟨rfl, hm, ?_⟩
          rw [hu, mapGet_mapSet]
          simp
        · left
          rw [hu, mapGet_mapSet, if_neg (fun hh => hg hh.symm)]
      · rename_i st1 fcase heq
        injection h with h1 h2
        exact absurd h2 (by simp)
  | some cs =>
      rw [hm] at h
      split at h
      · rename_i st1 m1 heq
        injection h with h1 h2
        subst h1
        left
        exact congrArg (fun u => mapGet u g)
          ((evalParamsPresEq B fuel _ params _ _ heq).1)
      · rename_i st1 fcase heq
        injection h with h1 h2
        exact absurd h2 (by simp)

/-- C2 (witness): at the failing definition `let f(x + 1) = 1` in a
fresh session, the table effect is exactly the fresh empty entry. -/
theorem letdefFailureTableEffectWitness :
    mapGet (evaluateLetStatement [] 50 initialState "f"
        [.binaryOperation "+" (.var "x") (.justNumber 1)] (.justNumber 1)).1.userfuncs "f"
      = mapGet initialState.userfuncs "f" ∨
    ("f" = "f" ∧ mapGet initialState.userfuncs "f" = none ∧
      mapGet (evaluateLetStatement [] 50 initialState "f"
        [.binaryOperation "+" (.var "x") (.justNumber 1)] (.justNumber 1)).1.userfuncs "f"
      = some []) :=
  letdefFailureTableEffect [] 50 initialState "f"
    [.binaryOperation "+" (.var "x") (.justNumber 1)] (.justNumber 1)
    ⟨1, [[]], [("f", [])], []⟩ "undefined x!" (by rfl) "f"

set_option maxHeartbeats 2000000 in
/-- C3 (counterexample): a cached value of `0` fails the truthy cache
test, so the call is re-invoked instead of returning the cached value:
after `const x = 7; let h(n) = x - 7` the call `h(1)` caches `0`, and
after `const x = 9` the same signature `h(1)` returns `2`, not the
cached `0` — two same-signature calls in one session with different
results. -/
theorem cacheZeroReinvokedCx :
    mapGet (feedList [] 200 initialState
        ["const x = 7", "let h(n) = x - 7", "h(1)"]).1.funcache "h(1)" = some 0 ∧
    (feedList [] 200 initialState
        ["const x = 7", "let h(n) = x - 7", "h(1)", "const x = 9", "h(1)"]).2 =
      [.ok (.text "<const x = 7>"), .ok (.text "<func h(n) = ...>"), .ok (.num 0),
       .ok (.text "<const x = 9>"), .ok (.num 2)] ∧
    (0 : ℚ) ≠ 2 :=
  ⟨rfl, rfl, by norm_num⟩

/-- C3 (amended): when the cache holds a nonzero value under the key
built from the name and the evaluated arguments, that value is returned
immediately, with no state change past argument evaluation — no builtin
or user clause runs and nothing is re-cached.  (A cached zero is treated
as absent by the truthy test and the call is re-invoked.) -/
theorem cacheHitNonzeroReturnsCached (B : Builtins) (fuel : ℕ)
    (st st1 : EvalState) (f : String) (args : List Expression)
    (vals : List ℚ) (v : ℚ)
    (hargs : evalArgs B fuel st args = (st1, .ok vals))
    (hcache : mapGet st1.funcache (cacheKey f vals) = some v)
    (hnz : v ≠ 0) :
    callFunction B (fuel + 1) st f args = (st1, .ok v) := by
  have ht := truthyGet_of_nonzero _ _ _ hcache hnz
  simp only [callFunction, hargs, ht]

/-- C3 (witness): a concrete cache hit at key "g()" with value 5. -/
theorem cacheHitNonzeroReturnsCachedWitness :
    callFunction [] 10 {initialState with funcache := [("g()", 5)]} "g" [] =
      ({initialState with funcache := [("g()", 5)]}, .ok 5) :=
  cacheHitNonzeroReturnsCached [] 9 {initialState with funcache := [("g()", 5)]}
    {initialState with funcache := [("g()", 5)]} "g" [] [] 5
    (by rfl) (by rfl) (by norm_num)

set_option maxHeartbeats 2000000 in
/-- C4: unary minus binds tighter than `^`, `^` is right-associative,
and `+ - * /` are left-associative: "-2^2" parses as `(-2)^2` and
evaluates to 4, "2^3^2" parses as `2^(3^2)` and evaluates to 512, and
"10-3-2" parses as `(10-3)-2` and evaluates to 5. -/
theorem operatorPrecedenceExamples :
    parseSingleStatement 100 "-2^2" = .ok (some (.expr (.binaryOperation "^"
      (.unaryOperation "-" (.justNumber 2)) (.justNumber 2)))) ∧
    (feedSingleStatement [] 100 initialState "-2^2").2 = .ok (.num 4) ∧
    parseSingleStatement 100 "2^3^2" = .ok (some (.expr (.binaryOperation "^"
      (.justNumber 2) (.binaryOperation "^" (.justNumber 3) (.justNumber 2))))) ∧
    (feedSingleStatement [] 100 initialState "2^3^2").2 = .ok (.num 512) ∧
    parseSingleStatement 100 "10-3-2" = .ok (some (.expr (.binaryOperation "-"
      (.binaryOperation "-" (.justNumber 10) (.justNumber 3)) (.justNumber 2)))) ∧
    (feedSingleStatement [] 100 initialState "10-3-2").2 = .ok (.num 5) :=
  ⟨rfl, rfl, rfl, rfl, rfl, rfl⟩

set_option maxHeartbeats 2000000 in
/-- C5: clauses accumulate across repeated LetDefs for the same name —
after `let f(0) = 1` and `let f(n) = n*2` the table holds both clauses
in declaration order — and calls take the first structurally matching
clause: `f(0)` returns 1, `f(7)` falls through to the bind clause and
returns 14. -/
theorem clauseAccumulationFirstMatch :
    (feedList [] 200 initialState
        ["let f(0) = 1", "let f(n) = n*2", "f(0)", "f(7)"]).2 =
      [.ok (.text "<func f(0) = ...>"), .ok (.text "<func f(n) = ...>"),
       .ok (.num 1), .ok (.num 14)] ∧
    (feedList [] 200 initialState ["let f(0) = 1", "let f(n) = n*2"]).1.userfuncs =
      [("f", [⟨[.num 0], .justNumber 1⟩,
              ⟨[.bind "n"], .binaryOperation "*" (.var "n") (.justNumber 2)⟩])] :=
  ⟨rfl, rfl⟩

/-- C6: the evaluator starts with counter 1, every feedSingleStatement
call advances it by exactly one — on success and on failure alike — any
propagated error message carries the "(Statement N)" banner built from
the counter value of that very call, and after feeding k statements the
counter reads k + 1. -/
theorem statementCounterSpec :
    initialState.nth = 1 ∧
    (∀ (B : Builtins) (fuel : ℕ) (st : EvalState) (text : String),
        (feedSingleStatement B fuel st text).1.nth = st.nth + 1) ∧
    (∀ (B : Builtins) (fuel : ℕ) (st : EvalState) (text m : String),
        (feedSingleStatement B fuel st text).2 = .error m →
        ∃ m0, m = "(Statement " ++ toString st.nth ++ ") " ++ m0) ∧
    (∀ (B : Builtins) (fuel : ℕ) (texts : List String),
        (feedList B fuel initialState texts).1.nth = texts.length + 1) :=
  ⟨rfl, feedNthSucc, feedErrPrefixed, fun B fuel texts => by
    rw [feedListNth]
    have h1 : initialState.nth = 1 := rfl
    omega⟩

set_option maxHeartbeats 2000000 in
/-- C6 (witness): feeding the failing statement "x" to a fresh session
bumps the counter from 1 to 2 and prefixes the error with
"(Statement 1)". -/
theorem statementCounterSpecWitness :
    (feedSingleStatement [] 50 initialState "x").1.nth = initialState.nth + 1 ∧
    (∃ m0, "(Statement 1) undefined x!" =
      "(Statement " ++ toString initialState.nth ++ ") " ++ m0) :=
  ⟨statementCounterSpec.2.1 [] 50 initialState "x",
   statementCounterSpec.2.2.1 [] 50 initialState "x"
     "(Statement 1) undefined x!" (by rfl)⟩

/-- C7: a call to a registered builtin on a cache miss invokes it (and
caches the result) exactly when the argument count equals the declared
arity, and otherwise fails with the arity error without invoking
anything — the state stays as it was after argument evaluation. -/
theorem builtinArityCheck (B : Builtins) (fuel : ℕ) (st st1 : EvalState)
    (f : String) (args : List Expression) (vals : List ℚ) (bf : Builtin)
    (hargs : evalArgs B fuel st args = (st1, .ok vals))
    (hcache : mapGet st1.funcache (cacheKey f vals) = none)
    (hbf : mapGet B f = some bf) :
    callFunction B (fuel + 1) st f args =
      if bf.arity = vals.length then
        ({st1 with funcache := mapSet st1.funcache (cacheKey f vals) (bf.impl vals)},
         .ok (bf.impl vals))
      else
        (st1, .error ("builtin function " ++ f ++ " expected " ++ toString bf.arity
          ++ " number of arguments, but got " ++ toString vals.length)) := by
  have ht := truthyGet_of_absent _ _ hcache
  simp only [callFunction, hargs, ht, hbf]

/-- C7 (witness): a two-argument builtin called with one argument fails
with the arity error. -/
theorem builtinArityCheckWitness :
    callFunction [("min", ⟨2, fun l => l.headD 0⟩)] 10 initialState "min"
        [.justNumber 1] =
      (initialState,
       .error "builtin function min expected 2 number of arguments, but got 1") := by
  have h := builtinArityCheck [("min", ⟨2, fun l => l.headD 0⟩)] 9 initialState
    initialState "min" [.justNumber 1] [1] ⟨2, fun l => l.headD 0⟩
    (by rfl) (by rfl) (by rfl)
  rw [if_neg (by norm_num)] at h
  exact h

/-- C8: lexing "" yields end-of-input immediately; "12.5 + x" lexes to
exactly number "12.5", operator "+", word "x"; a number token is a
nonempty digit run optionally followed by one '.' and a further digit
run, and the lone trailing '.' is accepted ("12." lexes to the single
number token "12."). -/
theorem lexerNumberTokens :
    tokenize "" = [] ∧
    readToken [] = (EOFToken, []) ∧
    tokenize "12.5 + x" =
      [⟨.number, "12.5"⟩, ⟨.operator, "+"⟩, ⟨.word, "x"⟩] ∧
    tokenize "12." = [⟨.number, "12."⟩] ∧
    (∀ (s : List Char) (c : Char) (rest : List Char),
        s.dropWhile isWhitespaceChar = c :: rest → isDigitChar c = true →
        ∃ ds fs, ds ≠ [] ∧ ds.all isDigitChar = true ∧ fs.all isDigitChar = true ∧
          ((readToken s).1 = ⟨.number, String.mk ds⟩ ∨
           (readToken s).1 = ⟨.number, String.mk (ds ++ '.' :: fs)⟩)) := by
  refine ⟨rfl, rfl, rfl, rfl, ?_⟩
  intro s c rest hs hc
  rw [readTokenDigit s c rest hs hc]
  exact readNumberShape c rest hc

/-- C8 (witness): the number-token shape at the concrete input "12.5". -/
theorem lexerNumberTokensWitness :
    ∃ ds fs, ds ≠ [] ∧ ds.all isDigitChar = true ∧ fs.all isDigitChar = true ∧
      ((readToken "12.5".data).1 = ⟨.number, String.mk ds⟩ ∨
       (readToken "12.5".data).1 = ⟨.number, String.mk (ds ++ '.' :: fs)⟩) :=
  lexerNumberTokens.2.2.2.2 "12.5".data '1' "2.5".data (by rfl) (by rfl)

/-- C9: empty or whitespace-only input parses to no statement; when a
complete statement leaves tokens behind, parsing fails with the
trailing-token syntax error — concretely, "1 + 2 3" fails with the
syntax error naming the trailing "3". -/
theorem parseStatementBoundaries :
    (∀ (fuel : ℕ) (s : String), s.data.all isWhitespaceChar = true →
        parseSingleStatement fuel s = .ok none) ∧
    (∀ (fuel : ℕ) (ts : List Token) (stmt : Statement) (ts1 : List Token),
        (currentTok ts).ttype ≠ .eof →
        parseStatement fuel ts = .ok (stmt, ts1) →
        (currentTok ts1).ttype ≠ .eof →
        parseSingleStatementTokens fuel ts =
          .error ("unexpected token \"" ++ (currentTok ts1).tvalue
            ++ "\" of type <" ++ ttypeName (currentTok ts1).ttype
            ++ "> at the end of the statement")) ∧
    parseSingleStatement 100 "1 + 2 3" =
      .error "unexpected token \"3\" of type <number> at the end of the statement" := by
  refine ⟨parseWsNone, ?_, rfl⟩
  intro fuel ts stmt ts1 h1 hp h2
  have hb1 : ((currentTok ts).ttype == .eof) = false := beq_eq_false_iff_ne.mpr h1
  have hb2 : ((currentTok ts1).ttype == .eof) = false := beq_eq_false_iff_ne.mpr h2
  simp [parseSingleStatementTokens, hb1, hp, hb2]

set_option maxHeartbeats 2000000 in
/-- C9 (witness): whitespace input parses to no statement, and the
trailing-token error fires on the token stream of "1 + 2 3". -/
theorem parseStatementBoundariesWitness :
    parseSingleStatement 7 "  " = .ok none ∧
    parseSingleStatementTokens 50 (tokenize "1 + 2 3") =
      .error "unexpected token \"3\" of type <number> at the end of the statement" :=
  ⟨parseStatementBoundaries.1 7 "  " (by rfl),
   parseStatementBoundaries.2.1 50 (tokenize "1 + 2 3")
     (.expr (.binaryOperation "+" (.justNumber 1) (.justNumber 2)))
     [⟨.number, "3"⟩] (by decide) (by rfl) (by decide)⟩

/-- C10: feeding an empty or whitespace-only line succeeds with the
textual confirmation "<empty>", increments the statement counter, and
leaves scopes, user functions, and cache untouched. -/
theorem whitespaceFeedEmpty (B : Builtins) (fuel : ℕ) (st : EvalState)
    (s : String) (h : s.data.all isWhitespaceChar = true) :
    feedSingleStatement B fuel st s =
      ({st with nth := st.nth + 1}, .ok (.text "<empty>")) := by
  simp only [feedSingleStatement, parseWsNone fuel s h]
  rfl

/-- C10 (witness): feeding a single blank line to a fresh session. -/
theorem whitespaceFeedEmptyWitness :
    feedSingleStatement [] 5 initialState " " =
      ({initialState with nth := initialState.nth + 1}, .ok (.text "<empty>")) :=
  whitespaceFeedEmpty [] 5 initialState " " (by rfl)

end FxEval
